import Mathlib

/-!
# Verification of the job-scheduler due-time engine

Shallow embedding of `src/main.rs` (a periodic task scheduler built on
chrono `DateTime<Utc>` timestamps).

Modelling conventions:

* A timestamp (`DateTime<Utc>`) is an `Int`: seconds since the Unix epoch
  (the clock contract in the spec is at-least-second resolution).
  `now.date_naive()` is floor-division by 86400, `now.time()` is the
  Euclidean remainder mod 86400, and `now.weekday()` follows from the fact
  that day 0 (1970-01-01) was a Thursday.
* A `NaiveTime` (the parsed `at_time`, "HH:MM") is an `Int` number of
  seconds into the day.
* `interval: u64` is a `Nat` holding the u64 value. Its `as i64` cast at
  evaluation time is modelled exactly by `u64_as_i64` (two's-complement
  wrap): values at or above `2^63` become negative, making the threshold
  negative — e.g. `interval = 2^64 - 1` yields a threshold of −1 s and
  the job re-fires immediately. chrono's `Duration` constructors panic
  outside roughly ±2^63/1000 seconds (scaled per unit); those aborts are
  not modelled — on that band the model still computes the wrapped
  threshold — so theorems that need the true product
  `interval × unit_duration` carry an explicit `interval < 2^63` bound,
  under which the cast preserves the value.
* `remaining_runs: Option<i32>` is an `Option Int` holding the i32 value;
  the one arithmetic operation performed on it, `*count -= 1`, wraps with
  two's-complement i32 semantics, made explicit as `i32wrap`.
* The job payload (`task: Arc<dyn Fn()>`) is opaque; invoking it is
  recorded as an event in an effect trace (`tickEffects`), not modelled as
  data. The `Job` structure therefore carries every field of the Rust
  struct except `task`.
-/

/-- `TimeUnit` enum from the source (`Hours | Days | Minutes | Seconds | Weeks`). -/
inductive TimeUnit where
  | Hours
  | Days
  | Minutes
  | Seconds
  | Weeks
deriving DecidableEq

/-- chrono `Weekday` (`Mon … Sun`), as used for the `weekday` restriction. -/
inductive Weekday where
  | Mon
  | Tue
  | Wed
  | Thu
  | Fri
  | Sat
  | Sun
deriving DecidableEq

/-- Two's-complement wrap-around into the i32 range `[-2^31, 2^31)`;
the semantics of the release-mode `*count -= 1` on an `i32`. -/
def i32wrap (x : Int) : Int :=
  (x + 2 ^ 31) % 2 ^ 32 - 2 ^ 31

/-- `now.date_naive()` for a timestamp in seconds since the epoch:
the calendar date, identified by its day number (floor division). -/
def dateOf (t : Int) : Int :=
  Int.fdiv t 86400

/-- `now.time()` for a timestamp in seconds since the epoch:
seconds into the calendar day, in `[0, 86400)`. -/
def timeOf (t : Int) : Int :=
  Int.emod t 86400

/-- `now.weekday()` for a timestamp in seconds since the epoch.
Day 0 of the epoch (1970-01-01) was a Thursday. -/
def weekdayOf (t : Int) : Weekday :=
  let d := (Int.fdiv t 86400 + 3).emod 7
  if d = 0 then .Mon
  else if d = 1 then .Tue
  else if d = 2 then .Wed
  else if d = 3 then .Thu
  else if d = 4 then .Fri
  else if d = 5 then .Sat
  else .Sun

/-- The `Job` struct from the source, minus the opaque `task` payload. -/
structure Job where
  interval : Nat
  time_unit : TimeUnit
  at_time : Option Int
  last_run : Option Int
  weekday : Option Weekday
  remaining_runs : Option Int
deriving DecidableEq

/-- The `as i64` cast of a u64 value (source line 158 applies it to
`job.interval`): two's-complement wrapping into `[-2^63, 2^63)`. -/
def u64_as_i64 (n : Nat) : Int :=
  if n % 2 ^ 64 < 2 ^ 63 then ((n % 2 ^ 64 : Nat) : Int)
  else ((n % 2 ^ 64 : Nat) : Int) - 2 ^ 64

/-- The `match job.time_unit { … }` building the threshold `Duration`
(source lines 157–163): `Duration::seconds/minutes/hours/days/weeks`
of `interval`, expressed in seconds. -/
def intervalDuration (u : TimeUnit) (i : Int) : Int :=
  match u with
  | .Seconds => i
  | .Minutes => 60 * i
  | .Hours => 3600 * i
  | .Days => 86400 * i
  | .Weeks => 604800 * i

/-- The history mutation of a fire (source lines 187–190):
`job.last_run = Some(now)` and, when present, `*count -= 1`
(i32, wrapping). -/
def fireUpdate (j : Job) (now : Int) : Job :=
  { j with last_run := some now,
           remaining_runs := j.remaining_runs.map (fun c => i32wrap (c - 1)) }

/-- One job's evaluation against `now`: the loop body of
`Scheduler::run_pending` (source lines 143–191), as a pure function
returning (fired?, updated job).  Gate order as in the source:
exhaustion check, weekday gate, interval gate (`should_run`), then —
only when `at_time` is set — the time-of-day gate and, for Day/Week
units with a previous run, the same-calendar-date suppression. -/
def evalJob (j : Job) (now : Int) : Bool × Job :=
  if j.remaining_runs = some 0 then (false, j)
  else if (match j.weekday with
           | some wanted_day => weekdayOf now ≠ wanted_day
           | none => false : Bool) then (false, j)
  else
    let should_run : Bool :=
      match j.last_run with
      | none => true
      | some last => decide (now - last ≥ intervalDuration j.time_unit (u64_as_i64 j.interval))
    if should_run then
      match j.at_time with
      | some at_t =>
        if timeOf now < at_t then (false, j)
        else
          match j.last_run with
          | some last_run =>
            (match j.time_unit with
             | .Days | .Weeks =>
               if dateOf last_run = dateOf now then (false, j)
               else (true, fireUpdate j now)
             | _ => (true, fireUpdate j now))
          | none => (true, fireUpdate j now)
      | none => (true, fireUpdate j now)
    else (false, j)

/-- The observable side effects of the fire branch (source lines 186–190),
in statement order: invoke the payload, set `last_run`, then decrement
`remaining_runs` when present. -/
inductive Effect where
  | invokePayload
  | setLastRun
  | decRemaining
deriving DecidableEq

/-- Effect trace of evaluating one job at `now`: empty on Skip; on Fire,
the fire branch's statements in source order. -/
def tickEffects (j : Job) (now : Int) : List Effect :=
  if (evalJob j now).1 then
    Effect.invokePayload :: Effect.setLastRun ::
      (match j.remaining_runs with
       | some _ => [Effect.decRemaining]
       | none => [])
  else []

/-- A sequence of evaluation ticks of one job against a list of `now`
timestamps: the final job state and the number of fires. -/
def runJob : Job → List Int → Job × Nat
  | j, [] => (j, 0)
  | j, now :: rest =>
    let step := evalJob j now
    let tail := runJob step.2 rest
    (tail.1, (if step.1 then 1 else 0) + tail.2)

/-- The `unit_duration` seconds-per-unit mapping exactly as the spec
states it (Seconds→1 s, Minutes→60 s, Hours→3600 s, Days→86400 s,
Weeks→604800 s), to be compared against `intervalDuration` from the
source. -/
def unit_duration (u : TimeUnit) : Int :=
  match u with
  | .Seconds => 1
  | .Minutes => 60
  | .Hours => 3600
  | .Days => 86400
  | .Weeks => 604800

/-- The scheduler registry: the ordered job collection. -/
structure Scheduler where
  jobs : List Job

/-- The builder produced by `Scheduler::every` (the mutable back-reference
to the scheduler is not carried; `do_` takes the scheduler explicitly). -/
structure JobBuilder where
  interval : Nat
  time_unit : Option TimeUnit
  at_time : Option Int
  weekday : Option Weekday
  repeat' : Option Int
deriving DecidableEq

/-- `Scheduler::every`: a fresh builder with only the interval set. -/
def Scheduler.every (interval : Nat) : JobBuilder :=
  { interval := interval, time_unit := none, at_time := none,
    weekday := none, repeat' := none }

/-- `JobBuilder::seconds`. -/
def JobBuilder.seconds (b : JobBuilder) : JobBuilder :=
  { b with time_unit := some .Seconds }

/-- `JobBuilder::hours`. -/
def JobBuilder.hours (b : JobBuilder) : JobBuilder :=
  { b with time_unit := some .Hours }

/-- `JobBuilder::repeat` (named `repeatCount` because `repeat` is reserved
in Lean and the builder field is already `repeat'`): stores any i32 count,
with no sign check. -/
def JobBuilder.repeatCount (b : JobBuilder) (count : Int) : JobBuilder :=
  { b with repeat' := some count }

/-- The configuration error of finalizing a builder without a time unit
(in the source, `self.time_unit.unwrap()` panicking on `None`; the spec
names it ConfigurationError, surfaced at registration time). -/
inductive ConfigurationError where
  | missingTimeUnit
deriving DecidableEq

/-- `JobBuilder::do_` (source lines 123–137): finalize the builder into a
`Job` and push it onto the scheduler; the `unwrap` of a missing
`time_unit` is the `Except.error` case, and then no job is pushed. -/
def JobBuilder.do_ (b : JobBuilder) (s : Scheduler) : Except ConfigurationError Scheduler :=
  match b.time_unit with
  | none => .error ConfigurationError.missingTimeUnit
  | some u =>
    .ok { jobs := s.jobs ++
      [{ interval := b.interval, time_unit := u, at_time := b.at_time,
         last_run := none, weekday := b.weekday,
         remaining_runs := b.repeat' }] }

def jBase : Job :=
  { interval := 3, time_unit := .Seconds, at_time := none,
    last_run := none, weekday := none, remaining_runs := none }

/-- A Monday-only variant of `jBase`, for the weekday gate. -/
def jMonday : Job :=
  { jBase with weekday := some Weekday.Mon }

/-- A daily job with `at_time` 01:00 (3600 s into the day). -/
def jDayAt : Job :=
  { jBase with time_unit := TimeUnit.Days, at_time := some 3600 }

/-- An hourly job with `at_time` 01:00: the configuration of the
same-calendar-date double fire. -/
def jHoursAt : Job :=
  { interval := 1, time_unit := TimeUnit.Hours, at_time := some 3600,
    last_run := none, weekday := none, remaining_runs := none }

/-- An exhausted job whose elapsed time is far past the threshold. -/
def jExhausted : Job :=
  { interval := 1, time_unit := TimeUnit.Seconds, at_time := none,
    last_run := some 0, weekday := none, remaining_runs := some 0 }

/-- `jBase` with a previous run at the epoch. -/
def jBaseRan : Job :=
  { jBase with last_run := some 0 }

/-- `jBase` capped at two runs. -/
def jRepeat2 : Job :=
  { jBase with remaining_runs := some 2 }

/-- `jBase` with a negative run counter. -/
def jNeg : Job :=
  { jBase with remaining_runs := some (-5) }

/-- `jBase` with its run counter at the i32 minimum. -/
def jIntMin : Job :=
  { jBase with remaining_runs := some (-(2 ^ 31)) }

/-- A job whose u64 interval, `2^64 - 1`, wraps to −1 under the `as i64`
cast, making the threshold −1 s. -/
def jWrap : Job :=
  { interval := 2 ^ 64 - 1, time_unit := TimeUnit.Seconds, at_time := none,
    last_run := some 0, weekday := none, remaining_runs := none }

/-- `jWrap` before its first run. -/
def jWrapBase : Job :=
  { jWrap with last_run := none }

/-- The job registered by `every(0).seconds().repeat(-1).do_(…)`:
no gate ever blocks it except exhaustion. -/
def jC10 : Job :=
  { interval := 0, time_unit := TimeUnit.Seconds, at_time := none,
    last_run := none, weekday := none, remaining_runs := some (-1) }

/-- `jC10` after `k` evaluation ticks, all at `now = 0`. -/
def c10Iter (k : Nat) : Job :=
  (fun j => (evalJob j 0).2)^[k] jC10

example : evalJob jBase 100 = (true, { jBase with last_run := some 100 }) := by decide

example : evalJob { jBase with last_run := some 98 } 100 =
    (false, { jBase with last_run := some 98 }) := by decide

example : evalJob { jBase with last_run := some 97 } 100 =
    (true, { jBase with last_run := some 100 }) := by decide

example : weekdayOf 0 = .Thu := by decide

/-- Every evaluation either Skips with the job untouched, or Fires and
applies exactly the `fireUpdate` history mutation. -/
lemma evalJob_cases (j : Job) (now : Int) :
    evalJob j now = (false, j) ∨ evalJob j now = (true, fireUpdate j now) := by
  unfold evalJob
  repeat' split <;> simp_all <;> try (first | omega | tauto)

/-- Complete characterization of the Fire decision as the conjunction of
the four gates of `run_pending`. -/
lemma fires_iff (j : Job) (now : Int) :
    (evalJob j now).1 = true ↔
      j.remaining_runs ≠ some 0 ∧
      (∀ w, j.weekday = some w → weekdayOf now = w) ∧
      (∀ last, j.last_run = some last →
        now - last ≥ intervalDuration j.time_unit (u64_as_i64 j.interval)) ∧
      (∀ T, j.at_time = some T →
        ¬ timeOf now < T ∧
        (∀ last, j.last_run = some last →
          (j.time_unit = TimeUnit.Days ∨ j.time_unit = TimeUnit.Weeks) →
          dateOf last ≠ dateOf now)) := by
  obtain ⟨i, u, a, l, w, r⟩ := j
  cases w <;> cases l <;> cases a <;>
      (unfold evalJob; repeat' split) <;> simp_all <;>
    try (first | omega | tauto | (split <;> simp_all))


/-- A non-firing evaluation leaves the job untouched. -/
lemma not_fires_skip (j : Job) (now : Int) (h : (evalJob j now).1 ≠ true) :
    evalJob j now = (false, j) := by
  rcases evalJob_cases j now with hc | hc
  · exact hc
  · rw [hc] at h
    simp at h

/-- An exhausted job (`remaining_runs = Some(0)`) is skipped unchanged. -/
lemma exhausted_skip (j : Job) (now : Int) (h : j.remaining_runs = some 0) :
    evalJob j now = (false, j) := by
  unfold evalJob
  simp [h]

/-- The source's per-unit `Duration` is exactly `interval` times the
spec's `unit_duration`. -/
lemma intervalDuration_eq (u : TimeUnit) (i : Int) :
    intervalDuration u i = i * unit_duration u := by
  cases u <;> simp [intervalDuration, unit_duration] <;> ring

/-- The `as i64` cast is the identity below `2^63`. -/
lemma u64_as_i64_eq_self (n : Nat) (h : n < 2 ^ 63) :
    u64_as_i64 n = (n : Int) := by
  unfold u64_as_i64
  rw [Nat.mod_eq_of_lt (by omega), if_pos h]

/-- A positive interval yields a positive threshold in every unit. -/
lemma intervalDuration_pos (u : TimeUnit) (i : Int) (hi : 1 ≤ i) :
    1 ≤ intervalDuration u i := by
  cases u <;> simp [intervalDuration] <;> omega

/-- `i32wrap` is the identity on the i32 range. -/
lemma i32wrap_eq_self (x : Int) (h1 : -(2 ^ 31) ≤ x) (h2 : x < 2 ^ 31) :
    i32wrap x = x := by
  unfold i32wrap
  norm_num at h1 h2 ⊢
  omega

/-- A fire on a job with a run counter wraps-decrements that counter. -/
lemma fire_remaining (j : Job) (now : Int) (r : Int)
    (hr : j.remaining_runs = some r) (hF : (evalJob j now).1 = true) :
    (evalJob j now).2.remaining_runs = some (i32wrap (r - 1)) := by
  rcases evalJob_cases j now with hc | hc
  · rw [hc] at hF
    simp at hF
  · rw [hc]
    simp [fireUpdate, hr]

/-- Claim C5: a job restricted to weekday `W` is skipped unchanged at every
timestamp whose weekday differs from `W` — regardless of elapsed time,
`at_time`, or `remaining_runs` — and it only ever fires at timestamps
whose weekday equals `W`. -/
theorem weekday_gate (j : Job) (now : Int) (w : Weekday)
    (hW : j.weekday = some w) :
    (weekdayOf now ≠ w → evalJob j now = (false, j)) ∧
    ((evalJob j now).1 = true → weekdayOf now = w) := by
  have hfired : (evalJob j now).1 = true → weekdayOf now = w := fun h =>
    ((fires_iff j now).mp h).2.1 w hW
  refine ⟨fun hne => ?_, hfired⟩
  apply not_fires_skip
  intro hf
  exact hne (hfired hf)

/-- Witness for C5: the Monday-only job is skipped unchanged on a
Thursday (the epoch), with history far past the threshold. -/
theorem weekday_gate_witness :
    weekdayOf 0 ≠ Weekday.Mon ∧ evalJob jMonday 0 = (false, jMonday) :=
  ⟨by decide, (weekday_gate jMonday 0 Weekday.Mon rfl).1 (by decide)⟩

/-- Claim C3: a job with `at_time = T` and a Days or Weeks unit never fires at
a timestamp whose time-of-day is below `T`, and is skipped unchanged
whenever `last_run` falls on the same calendar date as `now`. -/
theorem at_time_day_week_gate (j : Job) (now T : Int)
    (hA : j.at_time = some T)
    (hU : j.time_unit = TimeUnit.Days ∨ j.time_unit = TimeUnit.Weeks) :
    (timeOf now < T → evalJob j now = (false, j)) ∧
    (∀ l, j.last_run = some l → dateOf l = dateOf now →
      evalJob j now = (false, j)) := by
  constructor
  · intro h
    apply not_fires_skip
    intro hf
    exact (((fires_iff j now).mp hf).2.2.2 T hA).1 h
  · intro l hl hd
    apply not_fires_skip
    intro hf
    exact (((fires_iff j now).mp hf).2.2.2 T hA).2 l hl hU hd

/-- Witness for C3: the daily 01:00 job is skipped unchanged at the epoch
midnight (time-of-day 0 < 3600). -/
theorem at_time_day_week_gate_witness :
    timeOf 0 < 3600 ∧ evalJob jDayAt 0 = (false, jDayAt) :=
  ⟨by decide, (at_time_day_week_gate jDayAt 0 3600 rfl (Or.inl rfl)).1 (by decide)⟩

/-- Claim C4: the same-calendar-date suppression is not applied to
Seconds/Minutes/Hours jobs with an `at_time`: the hourly job with
`at_time` 01:00 fires at 05:00 and again at 07:00 of the same calendar
date, both times of day at or past `at_time` and separated by more than
the one-hour threshold. -/
theorem same_date_double_fire :
    (evalJob jHoursAt 18000).1 = true ∧
    (evalJob (evalJob jHoursAt 18000).2 25200).1 = true ∧
    dateOf 18000 = dateOf 25200 ∧
    (3600 : Int) ≤ timeOf 18000 ∧ (3600 : Int) ≤ timeOf 25200 ∧
    (25200 - 18000 : Int) ≥ (jHoursAt.interval : Int) * unit_duration jHoursAt.time_unit ∧
    jHoursAt.at_time = some 3600 ∧ jHoursAt.time_unit = TimeUnit.Hours := by
  decide

/-- Counterexample to C1 as stated, in both directions it can fail: the
exhausted job (`remaining_runs = Some(0)`, elapsed 100 ≥ threshold 1)
does not fire, so the claim's "Fire iff elapsed ≥ threshold" omits the
exhaustion gate; and at `interval = 2^64 - 1` the `as i64` cast wraps
the threshold to −1 s, so the job fires although elapsed 100 is far
below the claimed threshold `interval × unit_duration`. -/
theorem interval_iff_counterexample :
    (¬(((evalJob jExhausted 100).1 = true) ↔
      (100 : Int) - 0 ≥ (jExhausted.interval : Int) * unit_duration jExhausted.time_unit)) ∧
    (¬(((evalJob jWrap 100).1 = true) ↔
      (100 : Int) - 0 ≥ (jWrap.interval : Int) * unit_duration jWrap.time_unit)) := by
  constructor <;> decide

/-- Claim C1 (amended with `remaining_runs ≠ Some(0)` and
`interval < 2^63`, under which the u64→i64 cast preserves the interval):
for such a job with no weekday restriction and no `at_time`, evaluation
fires iff `now - last ≥ interval × unit_duration(time_unit)`
(non-strict), a job that never ran passes the interval gate and fires,
and the source's per-unit `Duration` construction equals
`interval × unit_duration` with the spec's mapping (1, 60, 3600, 86400,
604800 seconds). -/
theorem interval_gate (j : Job) (now : Int)
    (hW : j.weekday = none) (hA : j.at_time = none)
    (hR : j.remaining_runs ≠ some 0) (hI : j.interval < 2 ^ 63) :
    (∀ last, j.last_run = some last →
      ((evalJob j now).1 = true ↔
        now - last ≥ (j.interval : Int) * unit_duration j.time_unit)) ∧
    (j.last_run = none → (evalJob j now).1 = true) ∧
    (∀ u i, intervalDuration u i = i * unit_duration u) ∧
    unit_duration TimeUnit.Seconds = 1 ∧ unit_duration TimeUnit.Minutes = 60 ∧
    unit_duration TimeUnit.Hours = 3600 ∧ unit_duration TimeUnit.Days = 86400 ∧
    unit_duration TimeUnit.Weeks = 604800 := by
  refine ⟨fun last hl => ?_, fun hl => ?_, intervalDuration_eq,
    rfl, rfl, rfl, rfl, rfl⟩
  · rw [fires_iff]
    simp [hW, hA, hR, hl, intervalDuration_eq, u64_as_i64_eq_self j.interval hI]
  · rw [fires_iff]
    simp [hW, hA, hR, hl]

/-- Witness for C1 (amended): the 3-second job last run at the epoch fires
at `now = 100`, exactly at the claim's threshold inequality. -/
theorem interval_gate_witness :
    (evalJob jBaseRan 100).1 = true ∧
    (100 : Int) - 0 ≥ (jBaseRan.interval : Int) * unit_duration jBaseRan.time_unit :=
  ⟨((interval_gate jBaseRan 100 rfl rfl (by decide) (by decide)).1 0 rfl).mpr (by decide),
    by decide⟩

/-- Claim C7 (amended with `interval < 2^63`: only then does the u64→i64
cast keep the threshold positive): a job that fired at `now` is skipped
unchanged when evaluated again at the identical `now` (its elapsed time
is 0, strictly below the positive threshold); `evalJob` is by
construction a deterministic function of the (rule, history, now)
triple. -/
theorem second_tick_skips (j : Job) (now : Int) (hI : 1 ≤ j.interval)
    (hI2 : j.interval < 2 ^ 63) (hF : (evalJob j now).1 = true) :
    evalJob (evalJob j now).2 now = (false, (evalJob j now).2) := by
  rcases evalJob_cases j now with hc | hc
  · rw [hc] at hF
    simp at hF
  · apply not_fires_skip
    intro hf2
    have hlast : (evalJob j now).2.last_run = some now := by
      rw [hc]
      simp [fireUpdate]
    have hint := ((fires_iff (evalJob j now).2 now).mp hf2).2.2.1 now hlast
    have hunit : (evalJob j now).2.time_unit = j.time_unit := by
      rw [hc]
      simp [fireUpdate]
    have hintv : (evalJob j now).2.interval = j.interval := by
      rw [hc]
      simp [fireUpdate]
    rw [hunit, hintv, u64_as_i64_eq_self j.interval hI2] at hint
    have hpos := intervalDuration_pos j.time_unit (j.interval : Int) (by exact_mod_cast hI)
    omega

/-- Witness for C7: the 3-second job fires at the epoch and is skipped on
a second evaluation at the same instant. -/
theorem second_tick_skips_witness :
    1 ≤ jBase.interval ∧ (evalJob jBase 0).1 = true ∧
    evalJob (evalJob jBase 0).2 0 = (false, (evalJob jBase 0).2) :=
  ⟨by decide, by decide, second_tick_skips jBase 0 (by decide) (by decide) (by decide)⟩

/-- Counterexample to C7 as stated: at `interval = 2^64 - 1` (which is
≥ 1) the `as i64` cast wraps the threshold to −1 s, so the job fires at
`now = 0` and fires again — instead of skipping — on a second
evaluation at the identical `now`. -/
theorem second_tick_counterexample :
    1 ≤ jWrapBase.interval ∧
    (evalJob jWrapBase 0).1 = true ∧
    (evalJob (evalJob jWrapBase 0).2 0).1 = true := by
  refine ⟨by decide, by decide, by decide⟩

/-- Claim C8 (amended with `interval < 2^63`: only then does the u64→i64
cast keep the threshold positive): `last_run` is monotonic — a fire on a
job whose `last_run` is `Some(old)` moves it to `Some(now)` with
`old < now` — and one evaluation assigns `last_run` at most once: it is
either untouched or set to `now`. -/
theorem last_run_monotonic (j : Job) (now old : Int) (hI : 1 ≤ j.interval)
    (hI2 : j.interval < 2 ^ 63) (hL : j.last_run = some old) :
    ((evalJob j now).1 = true → (evalJob j now).2.last_run = some now ∧ old < now) ∧
    ((evalJob j now).2.last_run = j.last_run ∨ (evalJob j now).2.last_run = some now) := by
  constructor
  · intro hF
    rcases evalJob_cases j now with hc | hc
    · rw [hc] at hF
      simp at hF
    · have hint := ((fires_iff j now).mp hF).2.2.1 old hL
      rw [u64_as_i64_eq_self j.interval hI2] at hint
      have hpos := intervalDuration_pos j.time_unit (j.interval : Int) (by exact_mod_cast hI)
      refine ⟨by rw [hc]; simp [fireUpdate], by omega⟩
  · rcases evalJob_cases j now with hc | hc <;> rw [hc] <;> simp [fireUpdate]

/-- Witness for C8: the 3-second job last run at the epoch fires at 100
and its `last_run` advances from 0 to 100. -/
theorem last_run_monotonic_witness :
    (evalJob jBaseRan 100).1 = true ∧
    (evalJob jBaseRan 100).2.last_run = some 100 ∧ (0 : Int) < 100 :=
  ⟨by decide,
    ((last_run_monotonic jBaseRan 100 0 (by decide) (by decide) rfl).1 (by decide)).1,
    ((last_run_monotonic jBaseRan 100 0 (by decide) (by decide) rfl).1 (by decide)).2⟩

/-- Counterexample to C8 as stated: at `interval = 2^64 - 1` (≥ 1) the
wrapped −1 s threshold lets the job with `last_run = Some(0)` re-fire at
the identical instant `now = 0`, assigning `last_run := Some(0)` again —
the new value is not strictly greater than the old. -/
theorem last_run_monotonic_counterexample :
    1 ≤ jWrap.interval ∧ jWrap.last_run = some 0 ∧
    (evalJob jWrap 0).1 = true ∧
    (evalJob jWrap 0).2.last_run = some 0 ∧ ¬((0 : Int) < 0) := by
  decide

/-- An exhausted job stays untouched and never fires across any sequence
of ticks. -/
lemma runJob_exhausted (nows : List Int) (j : Job)
    (h : j.remaining_runs = some 0) : runJob j nows = (j, 0) := by
  induction nows with
  | nil => rfl
  | cons n rest ih => simp [runJob, exhausted_skip j n h, ih]

/-- Across any sequence of ticks, a job holding `remaining_runs = Some N`
(with `N` a non-negative i32 value) fires at most `N` times. -/
lemma runJob_count_le (nows : List Int) : ∀ (j : Job) (N : Int),
    j.remaining_runs = some N → 0 ≤ N → N < 2 ^ 31 →
    ((runJob j nows).2 : Int) ≤ N := by
  induction nows with
  | nil =>
    intro j N h h0 h31
    simpa [runJob] using h0
  | cons n rest ih =>
    intro j N h h0 h31
    by_cases hF : (evalJob j n).1 = true
    · have hne : N ≠ 0 := fun h0' => ((fires_iff j n).mp hF).1 (by rw [h, h0'])
      have hrem := fire_remaining j n N h hF
      rw [i32wrap_eq_self (N - 1) (by omega) (by omega)] at hrem
      have hrec := ih (evalJob j n).2 (N - 1) hrem (by omega) (by omega)
      simp only [runJob, hF, if_true]
      push_cast
      omega
    · have hskip := not_fires_skip j n hF
      have hrec := ih j N h h0 h31
      rw [show (runJob j (n :: rest)).2 = (if (evalJob j n).1 then 1 else 0) + (runJob (evalJob j n).2 rest).2 from rfl]
      rw [hskip]
      simpa using hrec

/-- Claim C2: a job with non-negative `repeat_limit = N` fires at most `N`
times across any tick sequence; `remaining_runs = Some(0)` always yields
Skip with no history change and is terminal across any further ticks;
and each fire decrements a positive counter by exactly 1. -/
theorem repeat_limit_cap (j : Job) (now : Int) (nows : List Int) (N r : Int) :
    (j.remaining_runs = some 0 → evalJob j now = (false, j)) ∧
    (j.remaining_runs = some 0 → runJob j nows = (j, 0)) ∧
    (j.remaining_runs = some N → 0 ≤ N → N < 2 ^ 31 →
      ((runJob j nows).2 : Int) ≤ N) ∧
    (j.remaining_runs = some r → 0 < r → r < 2 ^ 31 →
      (evalJob j now).1 = true →
      (evalJob j now).2.remaining_runs = some (r - 1)) := by
  refine ⟨exhausted_skip j now, runJob_exhausted nows j,
    runJob_count_le nows j N, fun h h0 h31 hF => ?_⟩
  have hrem := fire_remaining j now r h hF
  rw [i32wrap_eq_self (r - 1) (by omega) (by omega)] at hrem
  exact hrem

/-- Witness for C2: the exhausted job is skipped unchanged and never
fires; the two-run job fires at most twice over four ticks; a fire moves
the counter from 2 to 1. -/
theorem repeat_limit_cap_witness :
    evalJob jExhausted 5 = (false, jExhausted) ∧
    runJob jExhausted [5, 6] = (jExhausted, 0) ∧
    ((runJob jRepeat2 [0, 10, 20, 30]).2 : Int) ≤ 2 ∧
    (evalJob jRepeat2 0).2.remaining_runs = some (2 - 1) :=
  ⟨(repeat_limit_cap jExhausted 5 [] 0 0).1 rfl,
   (repeat_limit_cap jExhausted 5 [5, 6] 0 0).2.1 rfl,
   (repeat_limit_cap jRepeat2 0 [0, 10, 20, 30] 2 1).2.2.1 rfl (by decide) (by decide),
   (repeat_limit_cap jRepeat2 0 [] 2 2).2.2.2 rfl (by decide) (by decide) (by decide)⟩

/-- Claim C6 (amended: the decrement is two's-complement i32, so at the
i32 minimum it wraps instead of decreasing by 1): a Skip leaves the job
(both `last_run` and `remaining_runs`) unchanged and produces no
effects; a Fire produces the payload invocation strictly before every
history mutation (it heads the effect trace and occurs nowhere later),
sets `last_run` to `now`, decrements a present `remaining_runs` by
exactly 1 whenever the counter is above the i32 minimum, and touches no
rule field. -/
theorem effect_order_and_frame (j : Job) (now : Int) :
    ((evalJob j now).1 = false → (evalJob j now).2 = j ∧ tickEffects j now = []) ∧
    ((evalJob j now).1 = true →
      (tickEffects j now).head? = some Effect.invokePayload ∧
      (tickEffects j now).tail = Effect.setLastRun ::
        (match j.remaining_runs with
         | some _ => [Effect.decRemaining]
         | none => []) ∧
      Effect.invokePayload ∉ (tickEffects j now).tail ∧
      (evalJob j now).2.last_run = some now ∧
      (evalJob j now).2.remaining_runs =
        j.remaining_runs.map (fun c => i32wrap (c - 1)) ∧
      (∀ c, j.remaining_runs = some c → -(2 ^ 31) < c → c < 2 ^ 31 →
        (evalJob j now).2.remaining_runs = some (c - 1)) ∧
      (evalJob j now).2.interval = j.interval ∧
      (evalJob j now).2.time_unit = j.time_unit ∧
      (evalJob j now).2.at_time = j.at_time ∧
      (evalJob j now).2.weekday = j.weekday) := by
  constructor
  · intro h
    have hc := not_fires_skip j now (by simp [h])
    exact ⟨by rw [hc], by simp [tickEffects, h]⟩
  · intro h
    rcases evalJob_cases j now with hc | hc
    · rw [hc] at h
      simp at h
    · have ht : tickEffects j now = Effect.invokePayload :: Effect.setLastRun ::
          (match j.remaining_runs with
           | some _ => [Effect.decRemaining]
           | none => []) := by
        simp [tickEffects, h]
      refine ⟨by rw [ht]; rfl, by rw [ht]; rfl, ?_,
        by rw [hc]; simp [fireUpdate], by rw [hc]; simp [fireUpdate],
        fun c hcm h1 h2 => ?_,
        by rw [hc]; simp [fireUpdate], by rw [hc]; simp [fireUpdate],
        by rw [hc]; simp [fireUpdate], by rw [hc]; simp [fireUpdate]⟩
      · rw [ht]
        cases hr : j.remaining_runs <;> simp
      · rw [hc]
        simp [fireUpdate, hcm]
        exact i32wrap_eq_self (c - 1) (by omega) (by omega)

/-- Witness for C6: the base job fires at the epoch, the trace opens with
the payload invocation, and `last_run` is set to the tick's `now`. -/
theorem effect_order_and_frame_witness :
    (evalJob jBase 0).1 = true ∧
    (tickEffects jBase 0).head? = some Effect.invokePayload ∧
    (evalJob jBase 0).2.last_run = some 0 :=
  ⟨by decide, ((effect_order_and_frame jBase 0).2 (by decide)).1,
    ((effect_order_and_frame jBase 0).2 (by decide)).2.2.2.1⟩

/-- Claim C9: finalizing a builder with no selected time unit fails with
ConfigurationError, synchronously (no `ok` result exists), and no job is
registered; `every` itself starts with no unit selected. -/
theorem missing_unit_config_error (b : JobBuilder) (s : Scheduler)
    (h : b.time_unit = none) :
    b.do_ s = Except.error ConfigurationError.missingTimeUnit ∧
    (∀ s', b.do_ s ≠ Except.ok s') ∧
    (∀ n : Nat, (Scheduler.every n).time_unit = none) := by
  have h1 : b.do_ s = Except.error ConfigurationError.missingTimeUnit := by
    unfold JobBuilder.do_
    rw [h]
  refine ⟨h1, fun s' hk => ?_, fun n => rfl⟩
  rw [h1] at hk
  simp at hk

/-- Witness for C9: `every(3)` finalized directly on the empty scheduler
fails with ConfigurationError. -/
theorem missing_unit_config_error_witness :
    (Scheduler.every 3).time_unit = none ∧
    (Scheduler.every 3).do_ { jobs := [] } =
      Except.error ConfigurationError.missingTimeUnit :=
  ⟨rfl, (missing_unit_config_error (Scheduler.every 3) { jobs := [] } rfl).1⟩

/-- Closed form of `jC10`'s run: through the first `2^32 - 1` ticks its
counter is the i32-wrapped value of `-1 - k`. -/
lemma c10Iter_spec : ∀ k : Nat, k ≤ 2 ^ 32 - 1 →
    c10Iter k = { interval := 0, time_unit := TimeUnit.Seconds,
                  at_time := none,
                  last_run := if k = 0 then none else some 0,
                  weekday := none,
                  remaining_runs := some (i32wrap (-1 - (k : Int))) } := by
  intro k
  induction k with
  | zero => intro _; decide
  | succ k ih =>
    intro hk
    have hk' : k ≤ 2 ^ 32 - 1 := Nat.le_of_succ_le hk
    have hne : i32wrap (-1 - (k : Int)) ≠ 0 := by
      unfold i32wrap
      norm_num
      omega
    rw [show c10Iter (k + 1) = (evalJob (c10Iter k) 0).2 from
      Function.iterate_succ_apply' _ _ _]
    rw [ih hk']
    by_cases hk0 : k = 0
    · subst hk0
      decide
    · rw [if_neg hk0, if_neg (Nat.succ_ne_zero k)]
      unfold evalJob
      simp only [Option.some.injEq, hne, if_false, intervalDuration,
        u64_as_i64, fireUpdate, Option.map_some']
      norm_num
      unfold i32wrap
      norm_num
      omega

/-- After `2^32 - 1` fires, `jC10`'s counter has wrapped around to 0. -/
lemma c10_exhausts : (c10Iter (2 ^ 32 - 1)).remaining_runs = some 0 := by
  rw [c10Iter_spec (2 ^ 32 - 1) le_rfl]
  simp
  decide

/-- Counterexample to C10 as stated: `every(0).seconds().repeat(-1)`
registers `jC10`; its `remaining_runs` does reach `Some(0)` — after
`2^32 - 1` fires the i32 counter wraps around to 0 — and at the next
tick the exhaustion gate skips it even though every other gate passes,
so it does not fire without bound and the counter is bounded, not
"arbitrarily negative". -/
theorem negative_repeat_counterexample :
    (((Scheduler.every 0).seconds.repeatCount (-1)).do_ { jobs := [] } =
      Except.ok { jobs := [jC10] }) ∧
    (c10Iter (2 ^ 32 - 1)).remaining_runs = some 0 ∧
    evalJob (c10Iter (2 ^ 32 - 1)) 0 = (false, c10Iter (2 ^ 32 - 1)) ∧
    (c10Iter (2 ^ 32 - 1)).weekday = none ∧
    (c10Iter (2 ^ 32 - 1)).at_time = none := by
  refine ⟨rfl, c10_exhausts, exhausted_skip _ _ c10_exhausts, ?_, ?_⟩ <;>
    rw [c10Iter_spec (2 ^ 32 - 1) le_rfl]

/-- Claim C10 (amended): `repeat` accepts any i32 including negative values,
and a job with a negative counter is not blocked by the exhaustion gate —
its fire decision is identical to the same job with no counter, and each
fire decrements the counter by exactly 1 while it stays above the i32
minimum — but the counter is an i32, not an unbounded integer: it wraps
at `-2^31`, and `jC10`'s counter reaches `Some(0)` (permanently disabling
the job) after `2^32 - 1` fires. -/
theorem negative_repeat_amended (j : Job) (now r : Int)
    (hr : j.remaining_runs = some r) (hneg : r < 0) (hlo : -(2 ^ 31) < r) :
    ((evalJob j now).1 = (evalJob { j with remaining_runs := none } now).1) ∧
    ((evalJob j now).1 = true →
      (evalJob j now).2.remaining_runs = some (r - 1)) ∧
    (c10Iter (2 ^ 32 - 1)).remaining_runs = some 0 := by
  refine ⟨?_, fun hF => ?_, c10_exhausts⟩
  · have hR : j.remaining_runs ≠ some 0 := by
      rw [hr]
      simp
      omega
    have hiff : (evalJob j now).1 = true ↔
        (evalJob { j with remaining_runs := none } now).1 = true := by
      rw [fires_iff, fires_iff]
      simp [hR]
    cases hb1 : (evalJob j now).1 <;>
      cases hb2 : (evalJob { j with remaining_runs := none } now).1 <;>
      rw [hb1, hb2] at hiff <;> simp_all
  · have hrem := fire_remaining j now r hr hF
    rw [i32wrap_eq_self (r - 1) (by omega) (by omega)] at hrem
    exact hrem

/-- Witness for C10 (amended): the job with counter −5 fires exactly like
its uncounted twin and its counter moves to −6. -/
theorem negative_repeat_amended_witness :
    (evalJob jNeg 0).1 = (evalJob { jNeg with remaining_runs := none } 0).1 ∧
    (evalJob jNeg 0).2.remaining_runs = some (-5 - 1) :=
  ⟨(negative_repeat_amended jNeg 0 (-5) rfl (by decide) (by decide)).1,
   (negative_repeat_amended jNeg 0 (-5) rfl (by decide) (by decide)).2.1 (by decide)⟩

/-- Counterexample to C6 as stated: the decrement is not always "by
exactly 1" — a fire on a job whose counter sits at the i32 minimum
wraps it to `2^31 - 1` instead of `-2^31 - 1`. -/
theorem effect_decrement_counterexample :
    (evalJob jIntMin 0).1 = true ∧
    (evalJob jIntMin 0).2.remaining_runs = some (2 ^ 31 - 1) ∧
    (evalJob jIntMin 0).2.remaining_runs ≠ some (-(2 ^ 31) - 1) := by
  decide
